import Mathlib

/-!
Verification of the Synacor-challenge emulator/debugger toolkit.

This file is a shallow embedding, in Lean 4, of the parts of the Rust
sources that the verified properties speak about:

* `src/assembly.rs` — the value codec (`Val`), the 22-opcode model with
  the extra `__Invalid` variant, `size`, `assemble`, `fetch`, and the
  textual `FromStr` parser for `Val`;
* `src/emulator.rs` — the virtual machine `Vm`, its `PartialEq`, `fetch`,
  `execute`, `step` and `disassemble_function`.

Modelling conventions:

* Machine integers (`u16`, `usize`) are `Nat`; wrapping is written with an
  explicit `% 65536` (resp. `% 32768`) exactly where the source wraps.
* Rust panics (`expect`, out-of-bounds indexing, division by zero, the
  `panic!` macro) and returned `Err` values are both modelled as
  `Except.error` of the `VmErr` type below; `VmErr.isTyped` tells the two
  apart: `true` for errors the Rust code returns as `Result::Err` to its
  caller, `false` for panics, which abort the process.
* Rust `Vec` stacks push and pop at the back; the model's `List` stacks
  push and pop at the head (the head of the list is the top of the stack).
* `VecDeque` FIFO buffers are lists: front = head, push_back = append.
* Strings are lists of `Char`; the model identifies Rust's byte indices
  with character indices, which agrees with the source on ASCII input
  (all inputs of interest here are ASCII).
-/

/-- Errors of the model. Rust carries `Box<dyn Error>` values or panics;
the constructors record which concrete failure occurred at which kind of
site. -/
inductive VmErr where
  /-- `step` called while the state is not `Running` (a returned `Err`). -/
  | notRunning : VmErr
  /-- `fetch` met an opcode tag outside its table (a returned `Err`). -/
  | decodeErr : VmErr
  /-- `stack.pop().expect("Pop: empty stack")` (a panic). -/
  | popEmptyStack : VmErr
  /-- `get_value(..).expect("Invalid number")` on an `Invalid` operand (a panic). -/
  | invalidNumber : VmErr
  /-- `get_register(..).expect(..)` on a non-register operand (a panic;
  the source's message is "Not a register", or "In: not a register" in the
  `In` arm). -/
  | notARegister : VmErr
  /-- Out-of-bounds slice or `Vec` indexing (a panic). -/
  | indexOutOfBounds : VmErr
  /-- `val_b % val_c` with `val_c == 0`: Rust's remainder panics (a panic). -/
  | divByZero : VmErr
  /-- The `panic!("{:?}", self)` that `Vm::execute` runs on any `Call`
  whose resolved target is 6027 (a panic). -/
  | callAbort6027 : VmErr
  /-- A failed `str::parse` of a number (a returned `Err`). -/
  | numParseErr : VmErr
  /-- `l_par.ok_or("Missing left par")?` (a returned `Err`). -/
  | missingLeftPar : VmErr
  deriving DecidableEq

/-- Which errors the Rust code returns as `Result::Err` to its caller;
the others are panics, which abort the process instead of returning. -/
def VmErr.isTyped : VmErr → Bool
  | VmErr.notRunning => true
  | VmErr.decodeErr => true
  | VmErr.numParseErr => true
  | VmErr.missingLeftPar => true
  | _ => false

/-- `Val` of `src/assembly.rs` (the identical type is repeated in
`src/emulator.rs`): a decoded 16-bit word. -/
inductive Val where
  | Num : Nat → Val
  | Reg : Nat → Val
  | Invalid : Val
  deriving DecidableEq

/-- `Val::new` — decode a `u16` word `v` (so `v < 65536`):
`0..=32767` is `Num v`, `32768..=32775` is `Reg (v - 32768)`, the rest is
`Invalid`. -/
def Val.new (v : Nat) : Val :=
  if v ≤ 32767 then Val.Num v
  else if v ≤ 32775 then Val.Reg (v - 32768)
  else Val.Invalid

/-- `Val::as_binary` of `src/assembly.rs` (named `to_binary` in
`src/emulator.rs`, with the same body). -/
def Val.as_binary : Val → Nat
  | Val.Num v => v
  | Val.Reg r => r + 32768
  | Val.Invalid => 32776

/-- Operand domain used by the round-trip property: an in-domain `Val` is
an immediate below 32768 or a register index below 8. -/
def Val.in_domain : Val → Bool
  | Val.Num n => decide (n < 32768)
  | Val.Reg r => decide (r < 8)
  | Val.Invalid => false

namespace Assembly

/-- `Opcode` of `src/assembly.rs`: the 22 instructions plus the
`__Invalid` variant (discriminant `1 << 31`, assembled as the word
65535). -/
inductive Opcode where
  | Halt : Opcode
  | Set : Val → Val → Opcode
  | Push : Val → Opcode
  | Pop : Val → Opcode
  | Eq : Val → Val → Val → Opcode
  | Gt : Val → Val → Val → Opcode
  | Jmp : Val → Opcode
  | Jt : Val → Val → Opcode
  | Jf : Val → Val → Opcode
  | Add : Val → Val → Val → Opcode
  | Mult : Val → Val → Val → Opcode
  | Mod : Val → Val → Val → Opcode
  | And : Val → Val → Val → Opcode
  | Or : Val → Val → Val → Opcode
  | Not : Val → Val → Opcode
  | Rmem : Val → Val → Opcode
  | Wmem : Val → Val → Opcode
  | Call : Val → Opcode
  | Ret : Opcode
  | Out : Val → Opcode
  | In : Val → Opcode
  | Noop : Opcode
  /-- The source spells this variant `__Invalid`. -/
  | InvalidInstr : Opcode
  deriving DecidableEq

/-- `Opcode::size` of `src/assembly.rs`. -/
def Opcode.size : Opcode → Nat
  | Opcode.Halt => 1
  | Opcode.Set _ _ => 3
  | Opcode.Push _ => 2
  | Opcode.Pop _ => 2
  | Opcode.Eq _ _ _ => 4
  | Opcode.Gt _ _ _ => 4
  | Opcode.Jmp _ => 2
  | Opcode.Jt _ _ => 3
  | Opcode.Jf _ _ => 3
  | Opcode.Add _ _ _ => 4
  | Opcode.Mult _ _ _ => 4
  | Opcode.Mod _ _ _ => 4
  | Opcode.And _ _ _ => 4
  | Opcode.Or _ _ _ => 4
  | Opcode.Not _ _ => 3
  | Opcode.Rmem _ _ => 3
  | Opcode.Wmem _ _ => 3
  | Opcode.Call _ => 2
  | Opcode.Ret => 1
  | Opcode.Out _ => 2
  | Opcode.In _ => 2
  | Opcode.Noop => 1
  | Opcode.InvalidInstr => 1

/-- `Opcode::assemble` of `src/assembly.rs`. -/
def Opcode.assemble : Opcode → List Nat
  | Opcode.Halt => [0]
  | Opcode.Set a b => [1, a.as_binary, b.as_binary]
  | Opcode.Push a => [2, a.as_binary]
  | Opcode.Pop a => [3, a.as_binary]
  | Opcode.Eq a b c => [4, a.as_binary, b.as_binary, c.as_binary]
  | Opcode.Gt a b c => [5, a.as_binary, b.as_binary, c.as_binary]
  | Opcode.Jmp a => [6, a.as_binary]
  | Opcode.Jt a b => [7, a.as_binary, b.as_binary]
  | Opcode.Jf a b => [8, a.as_binary, b.as_binary]
  | Opcode.Add a b c => [9, a.as_binary, b.as_binary, c.as_binary]
  | Opcode.Mult a b c => [10, a.as_binary, b.as_binary, c.as_binary]
  | Opcode.Mod a b c => [11, a.as_binary, b.as_binary, c.as_binary]
  | Opcode.And a b c => [12, a.as_binary, b.as_binary, c.as_binary]
  | Opcode.Or a b c => [13, a.as_binary, b.as_binary, c.as_binary]
  | Opcode.Not a b => [14, a.as_binary, b.as_binary]
  | Opcode.Rmem a b => [15, a.as_binary, b.as_binary]
  | Opcode.Wmem a b => [16, a.as_binary, b.as_binary]
  | Opcode.Call a => [17, a.as_binary]
  | Opcode.Ret => [18]
  | Opcode.Out a => [19, a.as_binary]
  | Opcode.In a => [20, a.as_binary]
  | Opcode.Noop => [21]
  | Opcode.InvalidInstr => [65535]

/-- `memory[i]`: a slice read, panicking when out of bounds. -/
def read (memory : List Nat) (i : Nat) : Except VmErr Nat :=
  match memory.get? i with
  | some w => Except.ok w
  | none => Except.error VmErr.indexOutOfBounds

/-- One decoded operand: `mk (Val::new (memory[ip + 1]))`. -/
def fetch1 (memory : List Nat) (ip : Nat) (mk : Val → Opcode) : Except VmErr Opcode :=
  match read memory (ip + 1) with
  | Except.ok a => Except.ok (mk (Val.new a))
  | Except.error e => Except.error e

/-- Two decoded operands, read left to right. -/
def fetch2 (memory : List Nat) (ip : Nat) (mk : Val → Val → Opcode) :
    Except VmErr Opcode :=
  match read memory (ip + 1), read memory (ip + 2) with
  | Except.ok a, Except.ok b => Except.ok (mk (Val.new a) (Val.new b))
  | Except.error e, _ => Except.error e
  | _, Except.error e => Except.error e

/-- Three decoded operands, read left to right. -/
def fetch3 (memory : List Nat) (ip : Nat) (mk : Val → Val → Val → Opcode) :
    Except VmErr Opcode :=
  match read memory (ip + 1), read memory (ip + 2), read memory (ip + 3) with
  | Except.ok a, Except.ok b, Except.ok c =>
      Except.ok (mk (Val.new a) (Val.new b) (Val.new c))
  | Except.error e, _, _ => Except.error e
  | _, Except.error e, _ => Except.error e
  | _, _, Except.error e => Except.error e

/-- Model of `char::is_numeric`. The model restricts it to the ASCII
digits, which agrees with Rust on every ASCII character (the only ones
the verified properties touch). -/
def is_numeric (c : Char) : Bool := c.isDigit

/-- The numeric value of a digit string, most significant digit first. -/
def digits_to_nat (s : List Char) : Nat :=
  s.foldl (fun a c => a * 10 + (c.toNat - 48)) 0

/-- `str::parse::<u16>`: succeeds on a nonempty all-digit string whose
value fits in a `u16`. (Rust also tolerates one leading `+`, which the
model omits; no property here feeds one.) -/
def parse_u16 (s : List Char) : Except VmErr Nat :=
  if s ≠ [] ∧ (∀ c ∈ s, c.isDigit) ∧ digits_to_nat s < 65536 then
    Except.ok (digits_to_nat s)
  else Except.error VmErr.numParseErr

/-- `str::parse::<usize>` on a 64-bit target, same conventions as
`parse_u16`. -/
def parse_usize (s : List Char) : Except VmErr Nat :=
  if s ≠ [] ∧ (∀ c ∈ s, c.isDigit) ∧ digits_to_nat s < 18446744073709551616 then
    Except.ok (digits_to_nat s)
  else Except.error VmErr.numParseErr

/-- `s.find('(')`: index of the first left parenthesis. -/
def find_lpar : List Char → Option Nat
  | [] => none
  | c :: rest => if c = '(' then some 0 else (find_lpar rest).map (fun i => i + 1)

/-- `impl FromStr for Val` of `src/assembly.rs`: an all-numeric token
parses as an immediate; any other token is sliced between its first `(`
and its final character and the slice is parsed as a register index —
the name before the parenthesis is never inspected. A slice whose start
exceeds its end is a Rust panic (`indexOutOfBounds` here). -/
def val_from_str (s : List Char) : Except VmErr Val :=
  if s.all is_numeric then
    match parse_u16 s with
    | Except.ok n => Except.ok (Val.Num n)
    | Except.error e => Except.error e
  else
    match find_lpar s with
    | none => Except.error VmErr.missingLeftPar
    | some l_par =>
      if 1 + l_par ≤ s.length - 1 then
        match parse_usize ((s.drop (1 + l_par)).take (s.length - 1 - (1 + l_par))) with
        | Except.ok reg => Except.ok (Val.Reg reg)
        | Except.error e => Except.error e
      else Except.error VmErr.indexOutOfBounds

/-- `Opcode::fetch` of `src/assembly.rs`: read `memory[ip]` as a tag and
decode the operand words after it; a tag outside the table (other than
65535, which is `__Invalid`) is a returned decode error. -/
def Opcode.fetch (memory : List Nat) (ip : Nat) : Except VmErr Opcode :=
  match read memory ip with
  | Except.error e => Except.error e
  | Except.ok instr_type =>
    match instr_type with
    | 0 => Except.ok Opcode.Halt
    | 1 => fetch2 memory ip Opcode.Set
    | 2 => fetch1 memory ip Opcode.Push
    | 3 => fetch1 memory ip Opcode.Pop
    | 4 => fetch3 memory ip Opcode.Eq
    | 5 => fetch3 memory ip Opcode.Gt
    | 6 => fetch1 memory ip Opcode.Jmp
    | 7 => fetch2 memory ip Opcode.Jt
    | 8 => fetch2 memory ip Opcode.Jf
    | 9 => fetch3 memory ip Opcode.Add
    | 10 => fetch3 memory ip Opcode.Mult
    | 11 => fetch3 memory ip Opcode.Mod
    | 12 => fetch3 memory ip Opcode.And
    | 13 => fetch3 memory ip Opcode.Or
    | 14 => fetch2 memory ip Opcode.Not
    | 15 => fetch2 memory ip Opcode.Rmem
    | 16 => fetch2 memory ip Opcode.Wmem
    | 17 => fetch1 memory ip Opcode.Call
    | 18 => Except.ok Opcode.Ret
    | 19 => fetch1 memory ip Opcode.Out
    | 20 => fetch1 memory ip Opcode.In
    | 21 => Except.ok Opcode.Noop
    | 65535 => Except.ok Opcode.InvalidInstr
    | _ => Except.error VmErr.decodeErr

/-- The opcode domain of the round-trip property: the 22 real instructions
whose operands are all in-domain values (`__Invalid` is excluded). -/
def Opcode.in_domain : Opcode → Bool
  | Opcode.Halt => true
  | Opcode.Set a b => a.in_domain && b.in_domain
  | Opcode.Push a => a.in_domain
  | Opcode.Pop a => a.in_domain
  | Opcode.Eq a b c => a.in_domain && b.in_domain && c.in_domain
  | Opcode.Gt a b c => a.in_domain && b.in_domain && c.in_domain
  | Opcode.Jmp a => a.in_domain
  | Opcode.Jt a b => a.in_domain && b.in_domain
  | Opcode.Jf a b => a.in_domain && b.in_domain
  | Opcode.Add a b c => a.in_domain && b.in_domain && c.in_domain
  | Opcode.Mult a b c => a.in_domain && b.in_domain && c.in_domain
  | Opcode.Mod a b c => a.in_domain && b.in_domain && c.in_domain
  | Opcode.And a b c => a.in_domain && b.in_domain && c.in_domain
  | Opcode.Or a b c => a.in_domain && b.in_domain && c.in_domain
  | Opcode.Not a b => a.in_domain && b.in_domain
  | Opcode.Rmem a b => a.in_domain && b.in_domain
  | Opcode.Wmem a b => a.in_domain && b.in_domain
  | Opcode.Call a => a.in_domain
  | Opcode.Ret => true
  | Opcode.Out a => a.in_domain
  | Opcode.In a => a.in_domain
  | Opcode.Noop => true
  | Opcode.InvalidInstr => false

end Assembly

namespace Emulator

/-- `Opcode` of `src/emulator.rs`: the same 22 instructions, without the
`__Invalid` variant. -/
inductive Opcode where
  | Halt : Opcode
  | Set : Val → Val → Opcode
  | Push : Val → Opcode
  | Pop : Val → Opcode
  | Eq : Val → Val → Val → Opcode
  | Gt : Val → Val → Val → Opcode
  | Jmp : Val → Opcode
  | Jt : Val → Val → Opcode
  | Jf : Val → Val → Opcode
  | Add : Val → Val → Val → Opcode
  | Mult : Val → Val → Val → Opcode
  | Mod : Val → Val → Val → Opcode
  | And : Val → Val → Val → Opcode
  | Or : Val → Val → Val → Opcode
  | Not : Val → Val → Opcode
  | Rmem : Val → Val → Opcode
  | Wmem : Val → Val → Opcode
  | Call : Val → Opcode
  | Ret : Opcode
  | Out : Val → Opcode
  | In : Val → Opcode
  | Noop : Opcode
  deriving DecidableEq

/-- `Opcode::size` of `src/emulator.rs`. -/
def Opcode.size : Opcode → Nat
  | Opcode.Halt => 1
  | Opcode.Set _ _ => 3
  | Opcode.Push _ => 2
  | Opcode.Pop _ => 2
  | Opcode.Eq _ _ _ => 4
  | Opcode.Gt _ _ _ => 4
  | Opcode.Jmp _ => 2
  | Opcode.Jt _ _ => 3
  | Opcode.Jf _ _ => 3
  | Opcode.Add _ _ _ => 4
  | Opcode.Mult _ _ _ => 4
  | Opcode.Mod _ _ _ => 4
  | Opcode.And _ _ _ => 4
  | Opcode.Or _ _ _ => 4
  | Opcode.Not _ _ => 3
  | Opcode.Rmem _ _ => 3
  | Opcode.Wmem _ _ => 3
  | Opcode.Call _ => 2
  | Opcode.Ret => 1
  | Opcode.Out _ => 2
  | Opcode.In _ => 2
  | Opcode.Noop => 1

/-- `Opcode::discriminant`: the `repr(u32)` discriminant, `1 << k` for the
k-th variant. -/
def Opcode.discriminant : Opcode → Nat
  | Opcode.Halt => 1
  | Opcode.Set _ _ => 2
  | Opcode.Push _ => 4
  | Opcode.Pop _ => 8
  | Opcode.Eq _ _ _ => 16
  | Opcode.Gt _ _ _ => 32
  | Opcode.Jmp _ => 64
  | Opcode.Jt _ _ => 128
  | Opcode.Jf _ _ => 256
  | Opcode.Add _ _ _ => 512
  | Opcode.Mult _ _ _ => 1024
  | Opcode.Mod _ _ _ => 2048
  | Opcode.And _ _ _ => 4096
  | Opcode.Or _ _ _ => 8192
  | Opcode.Not _ _ => 16384
  | Opcode.Rmem _ _ => 32768
  | Opcode.Wmem _ _ => 65536
  | Opcode.Call _ => 131072
  | Opcode.Ret => 262144
  | Opcode.Out _ => 524288
  | Opcode.In _ => 1048576
  | Opcode.Noop => 2097152

/-- `Opcode::next_possible_ip` of `src/emulator.rs`: the statically known
branch-taken targets (not fall-through). -/
def Opcode.next_possible_ip : Opcode → List Val
  | Opcode.Jmp a => [a]
  | Opcode.Jt _ b => [b]
  | Opcode.Jf _ b => [b]
  | Opcode.Call a => [a]
  | _ => []

/-- `VmState` of `src/emulator.rs` (there is no breakpoint state in the
source). -/
inductive VmState where
  | Running : VmState
  | Halted : VmState
  | WaitingForInput : VmState
  deriving DecidableEq

/-- `MEM_SIZE` of `src/emulator.rs`. -/
def MEM_SIZE : Nat := 32768

/-- `Vm` of `src/emulator.rs`, field for field. -/
structure Vm where
  memory : List Nat
  registers : List Nat
  stack : List Nat
  /-- Instruction Pointer (next instruction). -/
  ip : Nat
  /-- Program Counter. -/
  pc : Nat
  state : VmState
  output_buffer : List Char
  input_buffer : List Char
  messages : List (List Char)
  traced_opcodes : Nat
  trace_buffer : List (Nat × Opcode)
  called_patched_fn : Bool
  enable_patching : Bool
  deriving DecidableEq

/-- `Vm::new`. -/
def Vm.new : Vm where
  memory := List.replicate MEM_SIZE 0
  registers := List.replicate 8 0
  stack := []
  ip := 0
  pc := 0
  state := VmState.Running
  output_buffer := []
  input_buffer := []
  messages := []
  traced_opcodes := 0
  trace_buffer := []
  called_patched_fn := false
  enable_patching := false

/-- `Vm::load_program_from_mem`: copy the program over the prefix of
memory (the source's `copy_from_slice`; programs here are never longer
than memory). -/
def Vm.load_program_from_mem (vm : Vm) (program : List Nat) : Vm :=
  { vm with memory := program ++ vm.memory.drop program.length }

/-- `impl PartialEq for Vm` of `src/emulator.rs`: the source walks the
zipped memories and then compares `registers`, `ip`, `pc`,
`output_buffer` and `input_buffer`, returning `false` at the first
mismatch; `stack`, `state`, `messages`, the trace and the patching flags
are never compared. -/
def vmEq (v w : Vm) : Bool :=
  ((v.memory.zip w.memory).all fun p => p.1 == p.2) &&
  (v.registers == w.registers) && (v.ip == w.ip) && (v.pc == w.pc) &&
  (v.output_buffer == w.output_buffer) && (v.input_buffer == w.input_buffer)

/-- `xs[i]`: a `Vec`/array read, panicking when out of bounds. -/
def read (xs : List Nat) (i : Nat) : Except VmErr Nat :=
  match xs.get? i with
  | some w => Except.ok w
  | none => Except.error VmErr.indexOutOfBounds

/-- `xs[i] = v`: a bounds-checked store. -/
def store (xs : List Nat) (i : Nat) (v : Nat) : Except VmErr (List Nat) :=
  if i < xs.length then Except.ok (xs.set i v)
  else Except.error VmErr.indexOutOfBounds

/-- `Vm::get_value` composed with the `.expect("Invalid number")` at its
call sites (`Vm::execute` always calls it under an `expect`): an
immediate is itself, a register operand reads `self.registers[x]`
(panicking out of bounds), and `Invalid` panics. -/
def Vm.get_value (vm : Vm) (v : Val) : Except VmErr Nat :=
  match v with
  | Val.Num x => Except.ok x
  | Val.Reg x => read vm.registers x
  | Val.Invalid => Except.error VmErr.invalidNumber

/-- `Vm::get_register` composed with the `.expect(..)` at its call
sites: yields the register index of a `Reg` operand and panics on the
other variants. -/
def get_register (v : Val) : Except VmErr Nat :=
  match v with
  | Val.Num _ => Except.error VmErr.notARegister
  | Val.Reg x => Except.ok x
  | Val.Invalid => Except.error VmErr.notARegister

/-- One decoded operand of `Vm::fetch`. -/
def fetch1 (memory : List Nat) (ip : Nat) (mk : Val → Opcode) : Except VmErr Opcode :=
  match read memory (ip + 1) with
  | Except.ok a => Except.ok (mk (Val.new a))
  | Except.error e => Except.error e

/-- Two decoded operands of `Vm::fetch`, read left to right. -/
def fetch2 (memory : List Nat) (ip : Nat) (mk : Val → Val → Opcode) :
    Except VmErr Opcode :=
  match read memory (ip + 1), read memory (ip + 2) with
  | Except.ok a, Except.ok b => Except.ok (mk (Val.new a) (Val.new b))
  | Except.error e, _ => Except.error e
  | _, Except.error e => Except.error e

/-- Three decoded operands of `Vm::fetch`, read left to right. -/
def fetch3 (memory : List Nat) (ip : Nat) (mk : Val → Val → Val → Opcode) :
    Except VmErr Opcode :=
  match read memory (ip + 1), read memory (ip + 2), read memory (ip + 3) with
  | Except.ok a, Except.ok b, Except.ok c =>
      Except.ok (mk (Val.new a) (Val.new b) (Val.new c))
  | Except.error e, _, _ => Except.error e
  | _, Except.error e, _ => Except.error e
  | _, _, Except.error e => Except.error e

/-- `Vm::fetch` of `src/emulator.rs`: like the assembly-layer fetch but
over `self.memory`, and without the `__Invalid` case — every tag outside
`0..=21` is a returned decode error. -/
def Vm.fetch (vm : Vm) (ip : Nat) : Except VmErr Opcode :=
  match read vm.memory ip with
  | Except.error e => Except.error e
  | Except.ok instr_type =>
    match instr_type with
    | 0 => Except.ok Opcode.Halt
    | 1 => fetch2 vm.memory ip Opcode.Set
    | 2 => fetch1 vm.memory ip Opcode.Push
    | 3 => fetch1 vm.memory ip Opcode.Pop
    | 4 => fetch3 vm.memory ip Opcode.Eq
    | 5 => fetch3 vm.memory ip Opcode.Gt
    | 6 => fetch1 vm.memory ip Opcode.Jmp
    | 7 => fetch2 vm.memory ip Opcode.Jt
    | 8 => fetch2 vm.memory ip Opcode.Jf
    | 9 => fetch3 vm.memory ip Opcode.Add
    | 10 => fetch3 vm.memory ip Opcode.Mult
    | 11 => fetch3 vm.memory ip Opcode.Mod
    | 12 => fetch3 vm.memory ip Opcode.And
    | 13 => fetch3 vm.memory ip Opcode.Or
    | 14 => fetch2 vm.memory ip Opcode.Not
    | 15 => fetch2 vm.memory ip Opcode.Rmem
    | 16 => fetch2 vm.memory ip Opcode.Wmem
    | 17 => fetch1 vm.memory ip Opcode.Call
    | 18 => Except.ok Opcode.Ret
    | 19 => fetch1 vm.memory ip Opcode.Out
    | 20 => fetch1 vm.memory ip Opcode.In
    | 21 => Except.ok Opcode.Noop
    | _ => Except.error VmErr.decodeErr

/-- The `op` closure inside `Vm::patched_2125`: `u16` bitwise steps
(`!x` on a `u16` is `65535 - x`). -/
def patched_2125_op (reg0 reg1 : Nat) : Nat :=
  let reg2 := reg0 &&& reg1
  let reg2 := 65535 - reg2
  let reg0 := reg0 ||| reg1
  reg0 &&& reg2

/-- `Vm::execute` of `src/emulator.rs`. The source first assigns
`self.ip = next_instruction_ptr` and then dispatches on the instruction,
mutating in place; panics abort. The model rebuilds the updated `Vm` (or
the error standing for the panic). Error checks appear in the source's
evaluation order. -/
def Vm.execute (vm0 : Vm) (instruction : Opcode) (next_instruction_ptr : Nat) :
    Except VmErr Vm :=
  let vm : Vm := { vm0 with ip := next_instruction_ptr }
  match instruction with
  | Opcode.Halt => Except.ok { vm with state := VmState.Halted }
  | Opcode.Set a b =>
    match vm.get_value b with
    | Except.error e => Except.error e
    | Except.ok val =>
      match get_register a with
      | Except.error e => Except.error e
      | Except.ok reg =>
        match store vm.registers reg val with
        | Except.error e => Except.error e
        | Except.ok regs => Except.ok { vm with registers := regs }
  | Opcode.Push a =>
    match vm.get_value a with
    | Except.error e => Except.error e
    | Except.ok val => Except.ok { vm with stack := val :: vm.stack }
  | Opcode.Pop a =>
    match vm.stack with
    | [] => Except.error VmErr.popEmptyStack
    | val :: rest =>
      match get_register a with
      | Except.error e => Except.error e
      | Except.ok reg =>
        match store vm.registers reg val with
        | Except.error e => Except.error e
        | Except.ok regs => Except.ok { vm with registers := regs, stack := rest }
  | Opcode.Eq a b c =>
    match vm.get_value b with
    | Except.error e => Except.error e
    | Except.ok val_b =>
      match vm.get_value c with
      | Except.error e => Except.error e
      | Except.ok val_c =>
        match get_register a with
        | Except.error e => Except.error e
        | Except.ok reg =>
          match store vm.registers reg (if val_b = val_c then 1 else 0) with
          | Except.error e => Except.error e
          | Except.ok regs => Except.ok { vm with registers := regs }
  | Opcode.Gt a b c =>
    match vm.get_value b with
    | Except.error e => Except.error e
    | Except.ok val_b =>
      match vm.get_value c with
      | Except.error e => Except.error e
      | Except.ok val_c =>
        match get_register a with
        | Except.error e => Except.error e
        | Except.ok reg =>
          match store vm.registers reg (if val_c < val_b then 1 else 0) with
          | Except.error e => Except.error e
          | Except.ok regs => Except.ok { vm with registers := regs }
  | Opcode.Jmp a =>
    match vm.get_value a with
    | Except.error e => Except.error e
    | Except.ok target => Except.ok { vm with ip := target }
  | Opcode.Jt a b =>
    match vm.get_value a with
    | Except.error e => Except.error e
    | Except.ok cond =>
      if cond ≠ 0 then
        match vm.get_value b with
        | Except.error e => Except.error e
        | Except.ok target => Except.ok { vm with ip := target }
      else Except.ok vm
  | Opcode.Jf a b =>
    match vm.get_value a with
    | Except.error e => Except.error e
    | Except.ok cond =>
      if cond = 0 then
        match vm.get_value b with
        | Except.error e => Except.error e
        | Except.ok target => Except.ok { vm with ip := target }
      else Except.ok vm
  | Opcode.Add a b c =>
    match vm.get_value b with
    | Except.error e => Except.error e
    | Except.ok val_b =>
      match vm.get_value c with
      | Except.error e => Except.error e
      | Except.ok val_c =>
        match get_register a with
        | Except.error e => Except.error e
        | Except.ok reg =>
          -- `val_b + val_c` is a checked `u16` addition in the source
          -- (debug build); an overflowing sum panics before the store.
          if 65536 ≤ val_b + val_c then Except.error VmErr.indexOutOfBounds
          else
            match store vm.registers reg ((val_b + val_c) % 32768) with
            | Except.error e => Except.error e
            | Except.ok regs => Except.ok { vm with registers := regs }
  | Opcode.Mult a b c =>
    match vm.get_value b with
    | Except.error e => Except.error e
    | Except.ok val_b =>
      match vm.get_value c with
      | Except.error e => Except.error e
      | Except.ok val_c =>
        match get_register a with
        | Except.error e => Except.error e
        | Except.ok reg =>
          match store vm.registers reg ((val_b * val_c) % 65536 % 32768) with
          | Except.error e => Except.error e
          | Except.ok regs => Except.ok { vm with registers := regs }
  | Opcode.Mod a b c =>
    match vm.get_value b with
    | Except.error e => Except.error e
    | Except.ok val_b =>
      match vm.get_value c with
      | Except.error e => Except.error e
      | Except.ok val_c =>
        match get_register a with
        | Except.error e => Except.error e
        | Except.ok reg =>
          if val_c = 0 then Except.error VmErr.divByZero
          else
            match store vm.registers reg (val_b % val_c) with
            | Except.error e => Except.error e
            | Except.ok regs => Except.ok { vm with registers := regs }
  | Opcode.And a b c =>
    match vm.get_value b with
    | Except.error e => Except.error e
    | Except.ok val_b =>
      match vm.get_value c with
      | Except.error e => Except.error e
      | Except.ok val_c =>
        match get_register a with
        | Except.error e => Except.error e
        | Except.ok reg =>
          match store vm.registers reg ((val_b &&& val_c) % 32768) with
          | Except.error e => Except.error e
          | Except.ok regs => Except.ok { vm with registers := regs }
  | Opcode.Or a b c =>
    match vm.get_value b with
    | Except.error e => Except.error e
    | Except.ok val_b =>
      match vm.get_value c with
      | Except.error e => Except.error e
      | Except.ok val_c =>
        match get_register a with
        | Except.error e => Except.error e
        | Except.ok reg =>
          match store vm.registers reg ((val_b ||| val_c) % 32768) with
          | Except.error e => Except.error e
          | Except.ok regs => Except.ok { vm with registers := regs }
  | Opcode.Not a b =>
    match vm.get_value b with
    | Except.error e => Except.error e
    | Except.ok val_b =>
      match get_register a with
      | Except.error e => Except.error e
      | Except.ok reg =>
        -- `!val_b` on a `u16` is `65535 - val_b`.
        match store vm.registers reg ((65535 - val_b) % 32768) with
        | Except.error e => Except.error e
        | Except.ok regs => Except.ok { vm with registers := regs }
  | Opcode.Rmem a b =>
    match vm.get_value b with
    | Except.error e => Except.error e
    | Except.ok addr =>
      match get_register a with
      | Except.error e => Except.error e
      | Except.ok reg =>
        match read vm.memory addr with
        | Except.error e => Except.error e
        | Except.ok val =>
          match store vm.registers reg val with
          | Except.error e => Except.error e
          | Except.ok regs => Except.ok { vm with registers := regs }
  | Opcode.Wmem a b =>
    match vm.get_value b with
    | Except.error e => Except.error e
    | Except.ok val =>
      -- The source reads the address with `get_value` too (indirection
      -- through a register is allowed); its expect message differs.
      match vm.get_value a with
      | Except.error e => Except.error e
      | Except.ok addr =>
        match store vm.memory addr val with
        | Except.error e => Except.error e
        | Except.ok mem => Except.ok { vm with memory := mem }
  | Opcode.Call a =>
    match vm.get_value a with
    | Except.error e => Except.error e
    | Except.ok addr =>
      if addr = 6027 then Except.error VmErr.callAbort6027
      else if vm.enable_patching ∧ addr = 3 then
        match store vm.registers 0 20 with
        | Except.error e => Except.error e
        | Except.ok regs =>
          Except.ok { vm with registers := regs, pc := vm.pc + 2,
                              called_patched_fn := true }
      else if vm.enable_patching ∧ addr = 2125 then
        match read vm.registers 0, read vm.registers 1 with
        | Except.ok reg0, Except.ok reg1 =>
          match store vm.registers 0 (patched_2125_op reg0 reg1) with
          | Except.error e => Except.error e
          | Except.ok regs =>
            Except.ok { vm with registers := regs, pc := vm.pc + 9,
                                called_patched_fn := true }
        | Except.error e, _ => Except.error e
        | _, Except.error e => Except.error e
      else
        -- `self.stack.push(self.ip as u16)`: `self.ip` is already the
        -- address after the Call; the cast truncates to 16 bits.
        Except.ok { vm with stack := (vm.ip % 65536) :: vm.stack, ip := addr }
  | Opcode.Ret =>
    match vm.stack with
    | addr :: rest => Except.ok { vm with ip := addr, stack := rest }
    | [] => Except.ok { vm with state := VmState.Halted }
  | Opcode.Out a =>
    match vm.get_value a with
    | Except.error e => Except.error e
    | Except.ok c =>
      -- `c as u8 as char`: keep the low 8 bits.
      Except.ok { vm with output_buffer := vm.output_buffer ++ [Char.ofNat (c % 256)] }
  | Opcode.In a =>
    match get_register a with
    | Except.error e => Except.error e
    | Except.ok reg =>
      match vm.input_buffer with
      | c :: rest =>
        -- `c as u16` on a Rust `char` truncates the scalar value.
        match store vm.registers reg (c.toNat % 65536) with
        | Except.error e => Except.error e
        | Except.ok regs =>
          Except.ok { vm with registers := regs, input_buffer := rest }
      | [] =>
        Except.ok { vm with messages := vm.messages ++ [vm.output_buffer],
                            output_buffer := [],
                            state := VmState.WaitingForInput,
                            ip := vm.ip - 2 }
  | Opcode.Noop => Except.ok vm

/-- The trace filter inside `Vm::step`: when the opcode's discriminant
bit is set in `traced_opcodes`, `(ip, instruction)` is appended to the
trace buffer before execution. -/
def traceStep (vm : Vm) (instruction : Opcode) : Vm :=
  if instruction.discriminant &&& vm.traced_opcodes ≠ 0 then
    { vm with trace_buffer := vm.trace_buffer ++ [(vm.ip, instruction)] }
  else vm

/-- `Vm::step` of `src/emulator.rs`: requires `Running`, fetches at
`ip`, traces when the opcode's discriminant bit is set, executes with the
advanced instruction pointer and counts the instruction in `pc`. -/
def Vm.step (vm : Vm) : Except VmErr Vm :=
  match vm.state with
  | VmState.Halted => Except.error VmErr.notRunning
  | VmState.WaitingForInput => Except.error VmErr.notRunning
  | VmState.Running =>
    match vm.fetch vm.ip with
    | Except.error e => Except.error e
    | Except.ok instruction =>
      match (traceStep vm instruction).execute instruction
          (vm.ip + instruction.size) with
      | Except.error e => Except.error e
      | Except.ok vm2 => Except.ok { vm2 with pc := vm2.pc + 1 }

/-- The inner `for n in &next` loop of `Vm::disassemble_function`:
register or invalid targets are skipped, already explored ones too, the
rest are fetched (an undecodable one aborts the whole extraction) and
appended to the back of the worklist with their size. -/
def enqueue_nexts (vm : Vm) :
    List Val → List Nat → List (Nat × Opcode × Nat) →
    Except VmErr (List (Nat × Opcode × Nat))
  | [], _, queue => Except.ok queue
  | n :: rest, explored, queue =>
    match n with
    | Val.Invalid => enqueue_nexts vm rest explored queue
    | Val.Reg _ => enqueue_nexts vm rest explored queue
    | Val.Num x =>
      if x ∈ explored then enqueue_nexts vm rest explored queue
      else
        match vm.fetch x with
        | Except.error e => Except.error e
        | Except.ok opcode =>
          enqueue_nexts vm rest explored (queue ++ [(x, opcode, opcode.size)])

/-- The successor set of one popped worklist entry: Halt and Ret stop,
a Call contributes only fall-through (call edges are not followed), and
every other instruction contributes its static branch targets plus
fall-through. `ip as u16 + size as u16` is modelled as wrapping 16-bit
arithmetic. -/
def next_targets (ip size : Nat) (instr : Opcode) : List Val :=
  match instr with
  | Opcode.Halt => []
  | Opcode.Ret => []
  | Opcode.Call _ => [Val.Num ((ip % 65536 + size % 65536) % 65536)]
  | _ => instr.next_possible_ip ++ [Val.Num ((ip % 65536 + size % 65536) % 65536)]

/-- The `while let Some(..) = queue.pop_front()` loop of
`Vm::disassemble_function`, with explicit fuel (`none` = out of fuel; the
source loop terminates because `explored` only grows within a finite
address space). On exhaustion of the worklist the collected instructions
are sorted by address — the source's `sort_by_key(|a| a.0)` — and
returned; there is no further check. -/
def dis_fn_loop (vm : Vm) :
    Nat → List (Nat × Opcode × Nat) → List Nat → List (Nat × Opcode) →
    Option (Except VmErr (List (Nat × Opcode)))
  | _, [], _, instructions =>
    some (Except.ok
      (List.insertionSort (fun a b : Nat × Opcode => a.1 ≤ b.1) instructions))
  | 0, _ :: _, _, _ => none
  | fuel + 1, (ip, instr, size) :: queue, explored, instructions =>
    if ip ∈ explored then dis_fn_loop vm fuel queue explored instructions
    else
      match enqueue_nexts vm (next_targets ip size instr) explored queue with
      | Except.error e => some (Except.error e)
      | Except.ok queue2 =>
        dis_fn_loop vm fuel queue2 (explored ++ [ip]) (instructions ++ [(ip, instr)])

/-- `Vm::disassemble_function` of `src/emulator.rs`: breadth-first
discovery from `starting_ip` following fall-through and static branch
targets, not call edges. -/
def Vm.disassemble_function (vm : Vm) (starting_ip : Nat) (fuel : Nat) :
    Option (Except VmErr (List (Nat × Opcode))) :=
  match vm.fetch starting_ip with
  | Except.error e => some (Except.error e)
  | Except.ok instr => dis_fn_loop vm fuel [(starting_ip, instr, instr.size)] [] []

/-- Modelled from the spec's aggregate contiguity invariant: the
assembled words of the instruction sequence exactly cover the address
range with no gaps, i.e. each instruction starts where the previous one
ends. The source has no corresponding check (which is what claim C8 is
about); only `pretty_print_dis` renders a `[...]` marker at a gap. -/
def contiguous : List (Nat × Opcode) → Bool
  | [] => true
  | [_] => true
  | (a1, o1) :: (a2, o2) :: rest =>
    (a1 + o1.size == a2) && contiguous ((a2, o2) :: rest)

instance : IsTotal (Nat × Opcode) (fun a b => a.1 ≤ b.1) :=
  ⟨fun a b => Nat.le_total a.1 b.1⟩

instance : IsTrans (Nat × Opcode) (fun a b => a.1 ≤ b.1) :=
  ⟨fun _ _ _ h1 h2 => le_trans h1 h2⟩

/-- Well-formedness of a fetched operand: any immediate it carries is
below 32768 (true of everything `Val::new` produces). -/
def Val.wfNum (v : Val) : Prop := ∀ m, v = Val.Num m → m < 32768

/-- The operand list of an instruction. -/
def Opcode.operands : Opcode → List Val
  | Opcode.Halt => []
  | Opcode.Set a b => [a, b]
  | Opcode.Push a => [a]
  | Opcode.Pop a => [a]
  | Opcode.Eq a b c => [a, b, c]
  | Opcode.Gt a b c => [a, b, c]
  | Opcode.Jmp a => [a]
  | Opcode.Jt a b => [a, b]
  | Opcode.Jf a b => [a, b]
  | Opcode.Add a b c => [a, b, c]
  | Opcode.Mult a b c => [a, b, c]
  | Opcode.Mod a b c => [a, b, c]
  | Opcode.And a b c => [a, b, c]
  | Opcode.Or a b c => [a, b, c]
  | Opcode.Not a b => [a, b]
  | Opcode.Rmem a b => [a, b]
  | Opcode.Wmem a b => [a, b]
  | Opcode.Call a => [a]
  | Opcode.Ret => []
  | Opcode.Out a => [a]
  | Opcode.In a => [a]
  | Opcode.Noop => []

/-- Every operand of the instruction is well formed. -/
def Opcode.wfOperands (o : Opcode) : Prop := ∀ v ∈ o.operands, Val.wfNum v

/-- A freshly constructed machine (as `Vm::new` builds one) whose memory
is the given short word list: used for concrete evaluations where only a
prefix of memory is ever read. -/
def mkVm (mem : List Nat) : Vm where
  memory := mem
  registers := List.replicate 8 0
  stack := []
  ip := 0
  pc := 0
  state := VmState.Running
  output_buffer := []
  input_buffer := []
  messages := []
  traced_opcodes := 0
  trace_buffer := []
  called_patched_fn := false
  enable_patching := false

/-- A fully loaded machine whose program is `Rmem (Reg 0) (Num 3)` with
the data word 40000 at address 3 — a raw binary image is loaded without
masking, so such a memory is reachable by `load_program_from_mem`. -/
def rmemVm : Vm := Vm.new.load_program_from_mem [15, 32768, 3, 40000]

/-- A machine about to execute `Call 6027`. -/
def call6027Vm : Vm := mkVm [17, 6027]

/-- A machine about to execute `In 5` (an `In` whose operand is an
immediate, not a register) with an empty input buffer. -/
def inNumVm : Vm := mkVm [20, 5]

/-- A machine about to execute `Mod (Reg 0) 1 0` — a modulus with
divisor 0. -/
def modZeroVm : Vm := mkVm [11, 32768, 1, 0]

/-- A machine whose function at 0 is `Jt (Reg 0) 100; Ret` with a `Ret`
at address 100: the extracted function has a gap between address 4 and
address 100. -/
def gapVm : Vm := mkVm ([7, 32768, 100, 18] ++ List.replicate 96 0 ++ [18])

/-- A machine about to execute `Halt`. -/
def haltVm : Vm := mkVm [0]

/-- A machine about to execute `Noop` (with something in every
observational buffer, so the frame theorems bite). -/
def noopVm : Vm := { mkVm [21] with messages := [['a']], output_buffer := ['b'] }

/-- A machine identical to `mkVm []` except for `pc`. -/
def pcVm : Vm := { mkVm [] with pc := 1 }

/-- A machine about to execute `In (Reg 0)` with an empty input buffer
and pending output. -/
def inRegVm : Vm := { mkVm [20, 32768] with output_buffer := ['h', 'i'] }

/-- A machine about to execute `Call 5`. -/
def callVm : Vm := mkVm [17, 5]

end Emulator

set_option maxRecDepth 4000

/-! ## Lemmas about the value codec -/

/-- Decoding inverts encoding on in-domain values. -/
theorem Val.new_as_binary (v : Val) (h : v.in_domain = true) :
    Val.new v.as_binary = v := by
  cases v with
  | Num n =>
    have hn : n < 32768 := by simpa [Val.in_domain] using h
    simp only [Val.as_binary, Val.new]
    rw [if_pos (by omega)]
  | Reg r =>
    have hr : r < 8 := by simpa [Val.in_domain] using h
    simp only [Val.as_binary, Val.new]
    rw [if_neg (by omega), if_pos (by omega)]
    simp
  | Invalid => simp [Val.in_domain] at h

/-- Claim C4: for every 16-bit word `w` with `w < 32776`, decoding does
not yield `Invalid` and re-encoding the decoded value yields `w` again. -/
theorem c4_encode_decode_roundtrip (w : Nat) (h : w < 32776) :
    Val.new w ≠ Val.Invalid ∧ (Val.new w).as_binary = w := by
  unfold Val.new
  split
  · exact ⟨by simp, rfl⟩
  · rw [if_pos (by omega)]
    refine ⟨by simp, ?_⟩
    simp only [Val.as_binary]
    omega

/-- Witness for C4 at the concrete register encoding 32770. -/
theorem c4_encode_decode_roundtrip_witness :
    Val.new 32770 ≠ Val.Invalid ∧ (Val.new 32770).as_binary = 32770 :=
  c4_encode_decode_roundtrip 32770 (by decide)

/-- Claim C3: for every in-domain opcode, fetching at address 0 of its
assembly yields the opcode back, and its size equals the length of its
assembly. -/
theorem c3_assemble_fetch_roundtrip (op : Assembly.Opcode)
    (h : op.in_domain = true) :
    Assembly.Opcode.fetch op.assemble 0 = Except.ok op ∧
      op.size = op.assemble.length := by
  cases op <;>
    simp_all [Assembly.Opcode.in_domain, Assembly.Opcode.fetch,
      Assembly.Opcode.assemble, Assembly.Opcode.size, Assembly.fetch1,
      Assembly.fetch2, Assembly.fetch3, Assembly.read, Val.new_as_binary]

/-- Witness for C3 at the concrete opcode `Set (Reg 0) 5`. -/
theorem c3_assemble_fetch_roundtrip_witness :
    Assembly.Opcode.fetch (Assembly.Opcode.Set (Val.Reg 0) (Val.Num 5)).assemble 0 =
        Except.ok (Assembly.Opcode.Set (Val.Reg 0) (Val.Num 5)) ∧
      (Assembly.Opcode.Set (Val.Reg 0) (Val.Num 5)).size =
        (Assembly.Opcode.Set (Val.Reg 0) (Val.Num 5)).assemble.length :=
  c3_assemble_fetch_roundtrip (Assembly.Opcode.Set (Val.Reg 0) (Val.Num 5)) (by decide)

/-! ## The textual Val parser -/

/-- `find` locates the first `(`; everything before it is never a
parenthesis. -/
theorem find_lpar_append (pre rest : List Char) (h : '(' ∉ pre) :
    Assembly.find_lpar (pre ++ '(' :: rest) = some pre.length := by
  induction pre with
  | nil => simp [Assembly.find_lpar]
  | cons c cs ih =>
    simp only [List.mem_cons, not_or] at h
    have hc : ¬ (c = '(') := fun hc => h.1 hc.symm
    show Assembly.find_lpar (c :: (cs ++ '(' :: rest)) = _
    rw [Assembly.find_lpar, if_neg hc, ih h.2]
    simp

/-- Claim C9: the textual `Val` parser accepts any token of shape
`Name(k)` — a prefix containing no parenthesis, a `(`, a digit run, and
one final character — and yields `Reg k` no matter what the name is. The
digit run's value must fit in a `usize` for Rust's parse to succeed. -/
theorem c9_val_parser_accepts_any_name (pre digits : List Char) (c : Char)
    (hpre : '(' ∉ pre) (hne : digits ≠ []) (hdig : ∀ ch ∈ digits, ch.isDigit)
    (hbound : Assembly.digits_to_nat digits < 18446744073709551616) :
    Assembly.val_from_str (pre ++ '(' :: (digits ++ [c])) =
      Except.ok (Val.Reg (Assembly.digits_to_nat digits)) := by
  have hall : (pre ++ '(' :: (digits ++ [c])).all Assembly.is_numeric = false := by
    apply List.all_eq_false.mpr
    refine ⟨'(', by simp, by simp [Assembly.is_numeric]⟩
  have hlen : (pre ++ '(' :: (digits ++ [c])).length
      = pre.length + digits.length + 2 := by
    simp
    omega
  have hdrop : (pre ++ '(' :: (digits ++ [c])).drop (1 + pre.length)
      = digits ++ [c] := by
    have : pre ++ '(' :: (digits ++ [c]) = (pre ++ ['(']) ++ (digits ++ [c]) := by
      simp
    rw [this]
    have hl : 1 + pre.length = (pre ++ ['(']).length := by simp; omega
    rw [hl, List.drop_left]
  have htake : (digits ++ [c]).take
      ((pre ++ '(' :: (digits ++ [c])).length - 1 - (1 + pre.length)) = digits := by
    rw [hlen]
    have : pre.length + digits.length + 2 - 1 - (1 + pre.length) = digits.length := by
      omega
    rw [this, List.take_left]
  rw [Assembly.val_from_str, if_neg (by simp [hall]), find_lpar_append _ _ hpre]
  have hcond : 1 + pre.length ≤ (pre ++ '(' :: (digits ++ [c])).length - 1 := by
    rw [hlen]; omega
  simp only [hdrop, htake, if_pos hcond]
  rw [Assembly.parse_usize, if_pos ⟨hne, hdig, hbound⟩]

/-- Witness for C9: the token `Foo(3)` parses as register 3, not as a
parse error. -/
theorem c9_val_parser_accepts_any_name_witness :
    Assembly.val_from_str ['F', 'o', 'o', '(', '3', ')'] = Except.ok (Val.Reg 3) :=
  c9_val_parser_accepts_any_name ['F', 'o', 'o'] ['3'] ')' (by decide) (by decide)
    (by decide) (by decide)

/-! ## Snapshot equality -/

/-- Claim C5 counterexample: two machines that differ only in `pc` — an
observational component the claim says equality ignores — compare
unequal under the source's `PartialEq`. -/
theorem c5_pc_counterexample :
    Emulator.pcVm.memory = (Emulator.mkVm []).memory ∧
    Emulator.pcVm.registers = (Emulator.mkVm []).registers ∧
    Emulator.pcVm.stack = (Emulator.mkVm []).stack ∧
    Emulator.pcVm.ip = (Emulator.mkVm []).ip ∧
    Emulator.pcVm.state = (Emulator.mkVm []).state ∧
    Emulator.pcVm.output_buffer = (Emulator.mkVm []).output_buffer ∧
    Emulator.pcVm.input_buffer = (Emulator.mkVm []).input_buffer ∧
    Emulator.pcVm.messages = (Emulator.mkVm []).messages ∧
    Emulator.pcVm.pc ≠ (Emulator.mkVm []).pc ∧
    Emulator.vmEq (Emulator.mkVm []) Emulator.pcVm = false := by
  decide

/-- Claim C5 amended: snapshot equality compares exactly the zipped
memories, the registers, `ip`, `pc` and the two I/O buffers, and ignores
exactly `stack`, `state`, `messages`, the trace and the patching flags
(none of which appear on the right-hand side). -/
theorem c5_vm_eq_characterization_amended (v w : Emulator.Vm) :
    Emulator.vmEq v w = true ↔
      ((∀ p ∈ v.memory.zip w.memory, p.1 = p.2) ∧ v.registers = w.registers ∧
        v.ip = w.ip ∧ v.pc = w.pc ∧ v.output_buffer = w.output_buffer ∧
        v.input_buffer = w.input_buffer) := by
  simp [Emulator.vmEq, List.all_eq_true, and_assoc]

/-! ## Frame lemmas for execution -/

namespace Emulator

/-- Tracing changes only the trace buffer: `memory` is untouched. -/
@[simp] theorem traceStep_memory (vm : Vm) (i : Opcode) :
    (traceStep vm i).memory = vm.memory := by
  rw [traceStep]; split <;> rfl

/-- Tracing changes only the trace buffer: `registers` is untouched. -/
@[simp] theorem traceStep_registers (vm : Vm) (i : Opcode) :
    (traceStep vm i).registers = vm.registers := by
  rw [traceStep]; split <;> rfl

/-- Tracing changes only the trace buffer: `stack` is untouched. -/
@[simp] theorem traceStep_stack (vm : Vm) (i : Opcode) :
    (traceStep vm i).stack = vm.stack := by
  rw [traceStep]; split <;> rfl

/-- Tracing changes only the trace buffer: `ip` is untouched. -/
@[simp] theorem traceStep_ip (vm : Vm) (i : Opcode) :
    (traceStep vm i).ip = vm.ip := by
  rw [traceStep]; split <;> rfl

/-- Tracing changes only the trace buffer: `pc` is untouched. -/
@[simp] theorem traceStep_pc (vm : Vm) (i : Opcode) :
    (traceStep vm i).pc = vm.pc := by
  rw [traceStep]; split <;> rfl

/-- Tracing changes only the trace buffer: `state` is untouched. -/
@[simp] theorem traceStep_state (vm : Vm) (i : Opcode) :
    (traceStep vm i).state = vm.state := by
  rw [traceStep]; split <;> rfl

/-- Tracing changes only the trace buffer: the output buffer is untouched. -/
@[simp] theorem traceStep_output_buffer (vm : Vm) (i : Opcode) :
    (traceStep vm i).output_buffer = vm.output_buffer := by
  rw [traceStep]; split <;> rfl

/-- Tracing changes only the trace buffer: the input buffer is untouched. -/
@[simp] theorem traceStep_input_buffer (vm : Vm) (i : Opcode) :
    (traceStep vm i).input_buffer = vm.input_buffer := by
  rw [traceStep]; split <;> rfl

/-- Tracing changes only the trace buffer: `messages` is untouched. -/
@[simp] theorem traceStep_messages (vm : Vm) (i : Opcode) :
    (traceStep vm i).messages = vm.messages := by
  rw [traceStep]; split <;> rfl

/-- Tracing changes only the trace buffer: the patching flag is untouched. -/
@[simp] theorem traceStep_enable_patching (vm : Vm) (i : Opcode) :
    (traceStep vm i).enable_patching = vm.enable_patching := by
  rw [traceStep]; split <;> rfl

/-- Tracing does not change how operands evaluate. -/
@[simp] theorem traceStep_get_value (vm : Vm) (i : Opcode) (x : Val) :
    (traceStep vm i).get_value x = vm.get_value x := by
  cases x <;> simp [Vm.get_value]

/-- `Vm::execute` only touches `messages` in the In-with-empty-input
arm: every other successfully executed instruction leaves it unchanged. -/
theorem execute_messages (vm : Vm) (instr : Opcode) (nip : Nat) (v2 : Vm)
    (hex : vm.execute instr nip = Except.ok v2)
    (hni : ∀ a, instr = Opcode.In a → vm.input_buffer ≠ []) :
    v2.messages = vm.messages := by
  cases instr <;>
    simp only [Vm.execute] at hex <;>
    (repeat' split at hex) <;>
    first
      | exact Except.noConfusion hex
      | (cases hex; rfl)
      | (exfalso; exact hni _ rfl (by assumption))

end Emulator

/-- Claim C10: a successful step of a running machine whose executed
instruction is not an `In` met with an empty input FIFO leaves the
`messages` sequence unchanged. -/
theorem c10_step_preserves_messages (v v2 : Emulator.Vm) (instr : Emulator.Opcode)
    (hrun : v.state = Emulator.VmState.Running)
    (hfetch : v.fetch v.ip = Except.ok instr)
    (hni : ∀ a, instr = Emulator.Opcode.In a → v.input_buffer ≠ [])
    (hstep : v.step = Except.ok v2) :
    v2.messages = v.messages := by
  rw [Emulator.Vm.step, hrun, hfetch] at hstep
  simp only [] at hstep
  split at hstep <;>
    first
      | exact Except.noConfusion hstep
      | (rename_i vm2 hex
         cases hstep
         have h2 := Emulator.execute_messages _ instr _ vm2 hex (by simpa using hni)
         simpa using h2)

/-- Witness for C10: one `Noop` step of a machine with a nonempty
message log and output buffer leaves `messages` unchanged. -/
theorem c10_step_preserves_messages_witness :
    ({ Emulator.noopVm with ip := 1, pc := 1 } : Emulator.Vm).messages =
      Emulator.noopVm.messages :=
  c10_step_preserves_messages Emulator.noopVm
    { Emulator.noopVm with ip := 1, pc := 1 } Emulator.Opcode.Noop rfl rfl
    (fun _a ha => Emulator.Opcode.noConfusion ha) rfl

/-! ## The In instruction on an empty input FIFO -/

namespace Emulator

/-- Executing `In (Reg r)` with an empty input buffer flushes the output
buffer into `messages`, clears it, suspends the machine and rewinds the
instruction pointer by the instruction's two words. -/
theorem execute_in_empty (vm : Vm) (r : Nat) (nip : Nat)
    (hinp : vm.input_buffer = []) :
    vm.execute (Opcode.In (Val.Reg r)) nip =
      Except.ok { vm with ip := nip - 2,
                          messages := vm.messages ++ [vm.output_buffer],
                          output_buffer := [],
                          state := VmState.WaitingForInput } := by
  simp only [Vm.execute, get_register, hinp]

end Emulator

/-- Claim C6 counterexample: the claim quantifies over every fetched
`In(dst)`; for `In 5` — an `In` whose operand is an immediate — with an
empty input FIFO, the step does not flush-and-suspend: `get_register` is
evaluated before the input buffer is consulted and panics, so the step
fails (and no message is appended). -/
theorem c6_in_nonregister_counterexample :
    Emulator.inNumVm.state = Emulator.VmState.Running ∧
    Emulator.inNumVm.input_buffer = [] ∧
    Emulator.inNumVm.fetch Emulator.inNumVm.ip =
      Except.ok (Emulator.Opcode.In (Val.Num 5)) ∧
    Emulator.inNumVm.step = Except.error VmErr.notARegister :=
  ⟨rfl, rfl, rfl, rfl⟩

/-- Claim C6, amended to `In` instructions whose operand is a register
(as the non-suspending branch of the source requires): one step of a
running machine whose fetched instruction is `In (Reg r)` and whose
input FIFO is empty flushes the output buffer as one entry appended to
`messages`, clears the output buffer, suspends the machine, and leaves
`ip` at the address of that same `In` (advance by 2, rewind by 2), with
memory, registers and stack unchanged. -/
theorem c6_in_empty_input_suspends_amended (v : Emulator.Vm) (r : Nat)
    (hrun : v.state = Emulator.VmState.Running)
    (hfetch : v.fetch v.ip = Except.ok (Emulator.Opcode.In (Val.Reg r)))
    (hinp : v.input_buffer = []) :
    ∃ v2, v.step = Except.ok v2 ∧
      v2.messages = v.messages ++ [v.output_buffer] ∧
      v2.output_buffer = [] ∧
      v2.state = Emulator.VmState.WaitingForInput ∧
      v2.ip = v.ip ∧
      v2.memory = v.memory ∧ v2.registers = v.registers ∧ v2.stack = v.stack := by
  rw [Emulator.Vm.step, hrun, hfetch]
  simp only []
  rw [Emulator.execute_in_empty (Emulator.traceStep v (Emulator.Opcode.In (Val.Reg r)))
    r _ (by simpa using hinp)]
  refine ⟨_, rfl, ?_, ?_, ?_, ?_, ?_, ?_, ?_⟩ <;>
    simp [Emulator.Opcode.size]

/-- Witness for C6 at a concrete suspended machine: `In (Reg 0)` at
address 0 with pending output and no input. -/
theorem c6_in_empty_input_suspends_witness :
    ∃ v2, Emulator.inRegVm.step = Except.ok v2 ∧
      v2.messages = Emulator.inRegVm.messages ++ [Emulator.inRegVm.output_buffer] ∧
      v2.output_buffer = [] ∧
      v2.state = Emulator.VmState.WaitingForInput ∧
      v2.ip = Emulator.inRegVm.ip ∧
      v2.memory = Emulator.inRegVm.memory ∧
      v2.registers = Emulator.inRegVm.registers ∧
      v2.stack = Emulator.inRegVm.stack :=
  c6_in_empty_input_suspends_amended Emulator.inRegVm 0 rfl rfl rfl

/-! ## Mod by zero and Call -/

namespace Emulator

/-- An `ip`-only update does not change how operands evaluate. -/
@[simp] theorem get_value_set_ip (vm : Vm) (n : Nat) (x : Val) :
    Vm.get_value { vm with ip := n } x = vm.get_value x := by
  cases x <;> rfl

/-- Executing `Mod` whose divisor evaluates to 0 aborts with the
division-by-zero panic, for every dividend. -/
theorem execute_mod_zero (vm : Vm) (a b c : Val) (nip : Nat) (vb r : Nat)
    (hb : vm.get_value b = Except.ok vb)
    (hc : vm.get_value c = Except.ok 0)
    (ha : get_register a = Except.ok r) :
    vm.execute (Opcode.Mod a b c) nip = Except.error VmErr.divByZero := by
  simp only [Vm.execute, get_value_set_ip, hb, hc, ha]
  simp

/-- Executing `Call` on a defined target other than 6027, with patching
off or a target outside the patch table, pushes the address after the
Call and jumps. -/
theorem execute_call (vm : Vm) (a : Val) (nip t : Nat)
    (hval : vm.get_value a = Except.ok t)
    (h6027 : t ≠ 6027)
    (hpatch : vm.enable_patching = false ∨ (t ≠ 3 ∧ t ≠ 2125)) :
    vm.execute (Opcode.Call a) nip =
      Except.ok { vm with ip := t, stack := (nip % 65536) :: vm.stack } := by
  simp only [Vm.execute, get_value_set_ip, hval]
  rw [if_neg h6027, if_neg ?h3, if_neg ?h21]
  case h3 =>
    rcases hpatch with h | h
    · intro hcontra; rw [show ({ vm with ip := nip } : Vm).enable_patching
        = vm.enable_patching from rfl, h] at hcontra
      exact Bool.noConfusion hcontra.1
    · intro hcontra; exact h.1 hcontra.2
  case h21 =>
    rcases hpatch with h | h
    · intro hcontra; rw [show ({ vm with ip := nip } : Vm).enable_patching
        = vm.enable_patching from rfl, h] at hcontra
      exact Bool.noConfusion hcontra.1
    · intro hcontra; exact h.2 hcontra.2

end Emulator

/-- Claim C7 counterexample: `Mod (Reg 0) 1 0` makes the step abort with
the division-by-zero panic — a crash, not a typed error returned to the
caller as the claim states (`isTyped = false` marks a panic). -/
theorem c7_mod_zero_counterexample :
    Emulator.modZeroVm.fetch Emulator.modZeroVm.ip =
      Except.ok (Emulator.Opcode.Mod (Val.Reg 0) (Val.Num 1) (Val.Num 0)) ∧
    Emulator.modZeroVm.step = Except.error VmErr.divByZero ∧
    VmErr.divByZero.isTyped = false :=
  ⟨rfl, rfl, rfl⟩

/-- Claim C7, amended: executing a `Mod` whose divisor operand evaluates
to 0 aborts the step with Rust's division-by-zero panic — an uncaught
crash (`isTyped = false`), not a typed error returned to the caller —
for every running machine and every dividend value. -/
theorem c7_mod_zero_aborts_amended (v : Emulator.Vm) (a b c : Val) (vb r : Nat)
    (hrun : v.state = Emulator.VmState.Running)
    (hfetch : v.fetch v.ip = Except.ok (Emulator.Opcode.Mod a b c))
    (hb : v.get_value b = Except.ok vb)
    (hc : v.get_value c = Except.ok 0)
    (ha : Emulator.get_register a = Except.ok r) :
    v.step = Except.error VmErr.divByZero ∧ VmErr.divByZero.isTyped = false := by
  rw [Emulator.Vm.step, hrun, hfetch]
  simp only []
  rw [Emulator.execute_mod_zero (Emulator.traceStep v (Emulator.Opcode.Mod a b c))
    a b c _ vb r (by simpa using hb) (by simpa using hc) ha]
  exact ⟨rfl, rfl⟩

/-- Witness for C7 at the concrete machine running `Mod (Reg 0) 1 0`. -/
theorem c7_mod_zero_aborts_witness :
    Emulator.modZeroVm.step = Except.error VmErr.divByZero ∧
    VmErr.divByZero.isTyped = false :=
  c7_mod_zero_aborts_amended Emulator.modZeroVm (Val.Reg 0) (Val.Num 1) (Val.Num 0)
    1 0 rfl rfl rfl rfl rfl

/-- Claim C2 counterexample: with patching disabled and `Call 6027`
fetched, the step does not push a return address and jump — it aborts in
the `panic!("{:?}", self)` the source keeps on that target. -/
theorem c2_call_6027_counterexample :
    Emulator.call6027Vm.enable_patching = false ∧
    Emulator.call6027Vm.fetch Emulator.call6027Vm.ip =
      Except.ok (Emulator.Opcode.Call (Val.Num 6027)) ∧
    Emulator.call6027Vm.get_value (Val.Num 6027) = Except.ok 6027 ∧
    Emulator.call6027Vm.step = Except.error VmErr.callAbort6027 :=
  ⟨rfl, rfl, rfl, rfl⟩

/-- Claim C2, amended: for every running machine whose fetched
instruction is `Call target` with `val(target)` defined, **other than
6027** (which panics), and — when patching is enabled — outside the
patch table `{3, 2125}`, one step pushes the address after the Call
(truncated to 16 bits, as the source's cast does) and jumps to the
target. -/
theorem c2_call_pushes_return_amended (v : Emulator.Vm) (a : Val) (t : Nat)
    (hrun : v.state = Emulator.VmState.Running)
    (hfetch : v.fetch v.ip = Except.ok (Emulator.Opcode.Call a))
    (hval : v.get_value a = Except.ok t)
    (h6027 : t ≠ 6027)
    (hpatch : v.enable_patching = false ∨ (t ≠ 3 ∧ t ≠ 2125)) :
    ∃ v2, v.step = Except.ok v2 ∧
      v2.stack = ((v.ip + 2) % 65536) :: v.stack ∧ v2.ip = t := by
  rw [Emulator.Vm.step, hrun, hfetch]
  simp only []
  rw [Emulator.execute_call (Emulator.traceStep v (Emulator.Opcode.Call a)) a _ t
    (by simpa using hval) h6027 (by simpa using hpatch)]
  exact ⟨_, rfl, by simp [Emulator.Opcode.size], by simp⟩

/-- Witness for C2 at the concrete machine running `Call 5`. -/
theorem c2_call_pushes_return_witness :
    ∃ v2, Emulator.callVm.step = Except.ok v2 ∧
      v2.stack = ((Emulator.callVm.ip + 2) % 65536) :: Emulator.callVm.stack ∧
      v2.ip = 5 :=
  c2_call_pushes_return_amended Emulator.callVm (Val.Num 5) 5 rfl rfl rfl
    (by decide) (Or.inl rfl)

/-! ## The function extractor -/

namespace Emulator

/-- A successful worklist run only ever returns the sort of what it
collected. -/
theorem dis_fn_loop_ok (vm : Vm) :
    ∀ (fuel : Nat) (q : List (Nat × Opcode × Nat)) (e : List Nat)
      (ins out : List (Nat × Opcode)),
      dis_fn_loop vm fuel q e ins = some (Except.ok out) →
      ∃ l, out = List.insertionSort (fun a b : Nat × Opcode => a.1 ≤ b.1) l := by
  intro fuel
  induction fuel with
  | zero =>
    intro q e ins out h
    cases q with
    | nil =>
      simp only [dis_fn_loop, Option.some_inj] at h
      exact ⟨ins, by cases h; rfl⟩
    | cons a t => simp [dis_fn_loop] at h
  | succ n ih =>
    intro q e ins out h
    cases q with
    | nil =>
      simp only [dis_fn_loop, Option.some_inj] at h
      exact ⟨ins, by cases h; rfl⟩
    | cons a t =>
      obtain ⟨ip, instr, size⟩ := a
      rw [dis_fn_loop] at h
      split at h
      · exact ih t e ins out h
      · split at h
        · simp at h
        · exact ih _ _ _ out h

/-- The default-or-last element of a list is the default or one of its
elements. -/
theorem getLastD_mem_cons (l : List (Nat × Opcode)) (d : Nat × Opcode) :
    l.getLastD d ∈ d :: l := by
  induction l generalizing d with
  | nil => simp [List.getLastD]
  | cons a t ih =>
    rw [List.getLastD_cons]
    rcases List.mem_cons.mp (ih a) with h | h
    · rw [h]; exact List.mem_cons_of_mem d (List.mem_cons_self a t)
    · exact List.mem_cons_of_mem d (List.mem_cons_of_mem a h)

/-- In a list sorted by address, the head address is minimal. -/
theorem sorted_headD_le (l : List (Nat × Opcode)) (d : Nat × Opcode)
    (hs : List.Sorted (fun a b : Nat × Opcode => a.1 ≤ b.1) l) :
    ∀ p ∈ l, (l.headD d).1 ≤ p.1 := by
  cases l with
  | nil => simp
  | cons a t =>
    intro p hp
    rcases List.mem_cons.mp hp with rfl | hp
    · simp
    · simpa using (List.sorted_cons.mp hs).1 p hp

/-- In a list sorted by address, the last address is maximal. -/
theorem sorted_le_getLastD (l : List (Nat × Opcode)) (d : Nat × Opcode)
    (hs : List.Sorted (fun a b : Nat × Opcode => a.1 ≤ b.1) l) :
    ∀ p ∈ l, p.1 ≤ (l.getLastD d).1 := by
  induction l generalizing d with
  | nil => simp
  | cons a t ih =>
    obtain ⟨h1, h2⟩ := List.sorted_cons.mp hs
    intro p hp
    rw [List.getLastD_cons]
    rcases List.mem_cons.mp hp with rfl | hp
    · rcases List.mem_cons.mp (getLastD_mem_cons t p) with h | h
      · rw [h]
      · exact h1 _ h
    · exact ih a h2 p hp

end Emulator

/-- Claim C8 counterexample: on a function whose instructions are
`Jt (Reg 0) 100` at 0, `Ret` at 3 and `Ret` at 100, the extractor
terminates successfully and returns the gapped list — it does not report
an error, although the assembled words do not contiguously cover the
range (addresses 4..99 are missing). -/
theorem c8_gap_counterexample :
    Emulator.Vm.disassemble_function Emulator.gapVm 0 10 =
      some (Except.ok [(0, Emulator.Opcode.Jt (Val.Reg 0) (Val.Num 100)),
        (3, Emulator.Opcode.Ret), (100, Emulator.Opcode.Ret)]) ∧
    Emulator.contiguous [(0, Emulator.Opcode.Jt (Val.Reg 0) (Val.Num 100)),
        (3, Emulator.Opcode.Ret), (100, Emulator.Opcode.Ret)] = false :=
  ⟨rfl, rfl⟩

/-- Claim C8, amended: whenever the extractor terminates successfully,
the returned instruction list is sorted by address, its first address is
the minimum and its last address the maximum; but no contiguity check is
performed — a function with a gap is returned as is, not reported as an
error. -/
theorem c8_disassemble_function_sorted_amended (vm : Emulator.Vm)
    (entry fuel : Nat) (out : List (Nat × Emulator.Opcode))
    (h : Emulator.Vm.disassemble_function vm entry fuel = some (Except.ok out)) :
    List.Sorted (fun a b : Nat × Emulator.Opcode => a.1 ≤ b.1) out ∧
    ∀ d : Nat × Emulator.Opcode, ∀ p ∈ out,
      (out.headD d).1 ≤ p.1 ∧ p.1 ≤ (out.getLastD d).1 := by
  rw [Emulator.Vm.disassemble_function] at h
  have hsorted : List.Sorted (fun a b : Nat × Emulator.Opcode => a.1 ≤ b.1) out := by
    split at h
    · simp at h
    · obtain ⟨l, rfl⟩ := Emulator.dis_fn_loop_ok vm fuel _ _ _ out h
      exact List.sorted_insertionSort (fun a b : Nat × Emulator.Opcode => a.1 ≤ b.1) l
  exact ⟨hsorted, fun d p hp =>
    ⟨Emulator.sorted_headD_le out d hsorted p hp,
     Emulator.sorted_le_getLastD out d hsorted p hp⟩⟩

/-- Witness for C8 at the one-instruction function `Halt` at address 0. -/
theorem c8_disassemble_function_sorted_witness :
    List.Sorted (fun a b : Nat × Emulator.Opcode => a.1 ≤ b.1)
      [(0, Emulator.Opcode.Halt)] ∧
    ∀ d : Nat × Emulator.Opcode, ∀ p ∈ [((0 : Nat), Emulator.Opcode.Halt)],
      (([((0 : Nat), Emulator.Opcode.Halt)].headD d)).1 ≤ p.1 ∧
      p.1 ≤ (([((0 : Nat), Emulator.Opcode.Halt)].getLastD d)).1 :=
  c8_disassemble_function_sorted_amended Emulator.haltVm 0 5
    [(0, Emulator.Opcode.Halt)] rfl

/-! ## Step invariants -/

namespace Emulator

/-- A successful indexed read reports the list entry at that index. -/
theorem read_ok (xs : List Nat) (i w : Nat) (h : read xs i = Except.ok w) :
    xs.get? i = some w := by
  unfold read at h
  split at h
  · cases h; assumption
  · exact Except.noConfusion h

/-- A successfully read value is an element of the list. -/
theorem read_mem (xs : List Nat) (i w : Nat) (h : read xs i = Except.ok w) :
    w ∈ xs :=
  List.get?_mem (read_ok xs i w h)

/-- A bounds-checked store preserves a predicate that holds of every
entry and of the stored value. -/
theorem store_forall (P : Nat → Prop) (xs ys : List Nat) (i v : Nat)
    (hall : ∀ x ∈ xs, P x) (hv : P v) (h : store xs i v = Except.ok ys) :
    ∀ x ∈ ys, P x := by
  unfold store at h
  split at h
  · cases h
    intro x hx
    rcases List.mem_or_eq_of_mem_set hx with h2 | rfl
    · exact hall x h2
    · exact hv
  · exact Except.noConfusion h

/-- Everything `Val::new` produces is well formed: any immediate it
yields is below 32768. -/
theorem Val.new_wfNum (w : Nat) : Val.wfNum (Val.new w) := by
  unfold Val.new Val.wfNum
  split
  · rename_i hw
    intro m hm
    cases hm
    omega
  · split
    · intro m hm; exact Val.noConfusion hm
    · intro m hm; exact Val.noConfusion hm

/-- Operand evaluation stays below 32768 when the registers do and the
operand is well formed. -/
theorem get_value_lt (vm : Vm) (v : Val) (n : Nat)
    (hreg : ∀ x ∈ vm.registers, x < 32768) (hwf : Val.wfNum v)
    (h : vm.get_value v = Except.ok n) : n < 32768 := by
  cases v with
  | Num m =>
    cases h
    exact hwf n rfl
  | Reg r => exact hreg n (read_mem _ _ _ h)
  | Invalid => exact Except.noConfusion h

/-- A one-operand fetched instruction has well-formed operands. -/
theorem fetch1_wf {m : List Nat} {ip : Nat} {mk : Val → Opcode} {instr : Opcode}
    (h : fetch1 m ip mk = Except.ok instr)
    (hmk : ∀ a, Opcode.operands (mk a) = [a]) : instr.wfOperands := by
  unfold fetch1 at h
  split at h
  · cases h
    intro v hv
    rw [hmk] at hv
    simp at hv
    subst hv
    exact Val.new_wfNum _
  · exact Except.noConfusion h

/-- A two-operand fetched instruction has well-formed operands. -/
theorem fetch2_wf {m : List Nat} {ip : Nat} {mk : Val → Val → Opcode} {instr : Opcode}
    (h : fetch2 m ip mk = Except.ok instr)
    (hmk : ∀ a b, Opcode.operands (mk a b) = [a, b]) : instr.wfOperands := by
  unfold fetch2 at h
  split at h
  · cases h
    intro v hv
    rw [hmk] at hv
    simp at hv
    rcases hv with rfl | rfl <;> exact Val.new_wfNum _
  · exact Except.noConfusion h
  · exact Except.noConfusion h

/-- A three-operand fetched instruction has well-formed operands. -/
theorem fetch3_wf {m : List Nat} {ip : Nat} {mk : Val → Val → Val → Opcode}
    {instr : Opcode}
    (h : fetch3 m ip mk = Except.ok instr)
    (hmk : ∀ a b c, Opcode.operands (mk a b c) = [a, b, c]) : instr.wfOperands := by
  unfold fetch3 at h
  split at h
  · cases h
    intro v hv
    rw [hmk] at hv
    simp at hv
    rcases hv with rfl | rfl | rfl <;> exact Val.new_wfNum _
  · exact Except.noConfusion h
  · exact Except.noConfusion h
  · exact Except.noConfusion h

/-- Every instruction `Vm::fetch` decodes has well-formed operands
(they all come from `Val::new`). -/
theorem fetch_wf (vm : Vm) (ip : Nat) (instr : Opcode)
    (h : vm.fetch ip = Except.ok instr) : instr.wfOperands := by
  unfold Vm.fetch at h
  split at h
  · exact Except.noConfusion h
  · split at h <;>
      first
        | exact Except.noConfusion h
        | (cases h; intro v hv; simp [Opcode.operands] at hv)
        | exact fetch1_wf h (fun a => rfl)
        | exact fetch2_wf h (fun a b => rfl)
        | exact fetch3_wf h (fun a b c => rfl)

/-- The native 2125 patch (a 15-bit xor) stays below 32768 on 15-bit
inputs. -/
theorem patched_2125_op_lt (r0 r1 : Nat) (h0 : r0 < 32768) (h1 : r1 < 32768) :
    patched_2125_op r0 r1 < 32768 := by
  have h0b : r0 < 2 ^ 15 := by omega
  have h1b : r1 < 2 ^ 15 := by omega
  have hor : r0 ||| r1 < 2 ^ 15 := Nat.or_lt_two_pow h0b h1b
  calc patched_2125_op r0 r1 ≤ r0 ||| r1 := Nat.and_le_left
    _ < 32768 := by omega

end Emulator

namespace Emulator

/-- The heart of claim C1: one successful `Vm::execute` preserves the
register/stack bounds and keeps `ip` below 32768, given well-formed
operands, a fall-through target below 32768, bounded inputs, and — for
`Rmem` — a masked source cell. -/
theorem execute_invariants (vm : Vm) (instr : Opcode) (nip : Nat) (v2 : Vm)
    (hex : vm.execute instr nip = Except.ok v2)
    (hreg : ∀ x ∈ vm.registers, x < 32768)
    (hstk : ∀ x ∈ vm.stack, x < 32768)
    (hinp : ∀ c ∈ vm.input_buffer, c.toNat % 65536 < 32768)
    (hwf : instr.wfOperands)
    (hnip : nip < 32768)
    (hrm : ∀ a b addr w, instr = Opcode.Rmem a b → vm.get_value b = Except.ok addr →
      vm.memory.get? addr = some w → w < 32768) :
    v2.ip < 32768 ∧ (∀ x ∈ v2.registers, x < 32768) ∧ (∀ x ∈ v2.stack, x < 32768) := by
  cases instr
  case Halt =>
    simp only [Vm.execute] at hex
    cases hex
    exact ⟨hnip, hreg, hstk⟩
  case Set a b =>
    simp only [Vm.execute, get_value_set_ip] at hex
    repeat' split at hex
    all_goals try exact Except.noConfusion hex
    all_goals cases hex
    rename_i x2 val hb x1 reg ha xS regs hst
    exact ⟨hnip, store_forall _ _ _ _ _ hreg
      (get_value_lt vm b val hreg (hwf b (by simp [Opcode.operands])) hb) hst, hstk⟩
  case Push a =>
    simp only [Vm.execute, get_value_set_ip] at hex
    repeat' split at hex
    all_goals try exact Except.noConfusion hex
    all_goals cases hex
    rename_i x1 val hv
    refine ⟨hnip, hreg, ?_⟩
    intro x hx
    rcases List.mem_cons.mp hx with rfl | hx
    · exact get_value_lt vm a x hreg (hwf a (by simp [Opcode.operands])) hv
    · exact hstk x hx
  case Pop a =>
    simp only [Vm.execute, get_value_set_ip] at hex
    repeat' split at hex
    all_goals try exact Except.noConfusion hex
    all_goals cases hex
    rename_i x1 val rest hstack x2 reg ha xS regs hst
    have hval : val ∈ vm.stack := by rw [hstack]; exact List.mem_cons_self _ _
    refine ⟨hnip, store_forall _ _ _ _ _ hreg (hstk val hval) hst, ?_⟩
    intro x hx
    exact hstk x (by rw [hstack]; exact List.mem_cons_of_mem _ hx)
  case Eq a b c =>
    simp only [Vm.execute, get_value_set_ip] at hex
    repeat' split at hex
    all_goals try exact Except.noConfusion hex
    all_goals cases hex
    all_goals rename_i xB vb hb xC vc hc xA reg ha xS regs hst
    all_goals exact ⟨hnip, store_forall _ _ _ _ _ hreg (by split <;> omega) hst, hstk⟩
  case Gt a b c =>
    simp only [Vm.execute, get_value_set_ip] at hex
    repeat' split at hex
    all_goals try exact Except.noConfusion hex
    all_goals cases hex
    all_goals rename_i xB vb hb xC vc hc xA reg ha xS regs hst
    all_goals exact ⟨hnip, store_forall _ _ _ _ _ hreg (by split <;> omega) hst, hstk⟩
  case Jmp a =>
    simp only [Vm.execute, get_value_set_ip] at hex
    repeat' split at hex
    all_goals try exact Except.noConfusion hex
    all_goals cases hex
    rename_i x1 t hv
    exact ⟨get_value_lt vm a t hreg (hwf a (by simp [Opcode.operands])) hv, hreg, hstk⟩
  case Jt a b =>
    simp only [Vm.execute, get_value_set_ip] at hex
    repeat' split at hex
    all_goals try exact Except.noConfusion hex
    all_goals cases hex
    case _ =>
      rename_i x1 cond hc hcond x2 t hv
      exact ⟨get_value_lt vm b t hreg (hwf b (by simp [Opcode.operands])) hv, hreg, hstk⟩
    case _ =>
      exact ⟨hnip, hreg, hstk⟩
  case Jf a b =>
    simp only [Vm.execute, get_value_set_ip] at hex
    repeat' split at hex
    all_goals try exact Except.noConfusion hex
    all_goals cases hex
    case _ =>
      rename_i x1 cond hc hcond x2 t hv
      exact ⟨get_value_lt vm b t hreg (hwf b (by simp [Opcode.operands])) hv, hreg, hstk⟩
    case _ =>
      exact ⟨hnip, hreg, hstk⟩
  case Add a b c =>
    simp only [Vm.execute, get_value_set_ip] at hex
    repeat' split at hex
    all_goals try exact Except.noConfusion hex
    all_goals cases hex
    rename_i xB vb hb xC vc hc xA reg ha hovf xS regs hst
    exact ⟨hnip, store_forall _ _ _ _ _ hreg (Nat.mod_lt _ (by omega)) hst, hstk⟩
  case Mult a b c =>
    simp only [Vm.execute, get_value_set_ip] at hex
    repeat' split at hex
    all_goals try exact Except.noConfusion hex
    all_goals cases hex
    rename_i xB vb hb xC vc hc xA reg ha xS regs hst
    exact ⟨hnip, store_forall _ _ _ _ _ hreg (Nat.mod_lt _ (by omega)) hst, hstk⟩
  case Mod a b c =>
    simp only [Vm.execute, get_value_set_ip] at hex
    repeat' split at hex
    all_goals try exact Except.noConfusion hex
    all_goals cases hex
    rename_i xB vb hb xC vc hc xA reg ha hz xS regs hst
    exact ⟨hnip, store_forall _ _ _ _ _ hreg
      (lt_of_le_of_lt (Nat.mod_le _ _)
        (get_value_lt vm b vb hreg (hwf b (by simp [Opcode.operands])) hb)) hst, hstk⟩
  case And a b c =>
    simp only [Vm.execute, get_value_set_ip] at hex
    repeat' split at hex
    all_goals try exact Except.noConfusion hex
    all_goals cases hex
    rename_i xB vb hb xC vc hc xA reg ha xS regs hst
    exact ⟨hnip, store_forall _ _ _ _ _ hreg (Nat.mod_lt _ (by omega)) hst, hstk⟩
  case Or a b c =>
    simp only [Vm.execute, get_value_set_ip] at hex
    repeat' split at hex
    all_goals try exact Except.noConfusion hex
    all_goals cases hex
    rename_i xB vb hb xC vc hc xA reg ha xS regs hst
    exact ⟨hnip, store_forall _ _ _ _ _ hreg (Nat.mod_lt _ (by omega)) hst, hstk⟩
  case Not a b =>
    simp only [Vm.execute, get_value_set_ip] at hex
    repeat' split at hex
    all_goals try exact Except.noConfusion hex
    all_goals cases hex
    rename_i xB vb hb xA reg ha xS regs hst
    exact ⟨hnip, store_forall _ _ _ _ _ hreg (Nat.mod_lt _ (by omega)) hst, hstk⟩
  case Rmem a b =>
    simp only [Vm.execute, get_value_set_ip] at hex
    repeat' split at hex
    all_goals try exact Except.noConfusion hex
    all_goals cases hex
    rename_i xB addr hb xA reg ha xR w hr xS regs hst
    exact ⟨hnip, store_forall _ _ _ _ _ hreg
      (hrm a b addr w rfl hb (read_ok _ _ _ hr)) hst, hstk⟩
  case Wmem a b =>
    simp only [Vm.execute, get_value_set_ip] at hex
    repeat' split at hex
    all_goals try exact Except.noConfusion hex
    all_goals cases hex
    exact ⟨hnip, hreg, hstk⟩
  case Call a =>
    simp only [Vm.execute, get_value_set_ip] at hex
    repeat' split at hex
    all_goals try exact Except.noConfusion hex
    all_goals cases hex
    case _ =>
      rename_i x1 addr hv h6027 hpat xS regs hst
      exact ⟨hnip, store_forall _ _ _ _ _ hreg (by omega) hst, hstk⟩
    case _ =>
      rename_i x1 addr hv h6027 hpat hpat2 x2 x3 r0 r1 h0 h1 xS regs hst
      exact ⟨hnip, store_forall _ _ _ _ _ hreg
        (patched_2125_op_lt r0 r1 (hreg r0 (read_mem _ _ _ h0))
          (hreg r1 (read_mem _ _ _ h1))) hst, hstk⟩
    case _ =>
      rename_i x1 addr hv h6027 hpat hpat2
      refine ⟨get_value_lt vm a addr hreg (hwf a (by simp [Opcode.operands])) hv,
        hreg, ?_⟩
      intro x hx
      rcases List.mem_cons.mp hx with rfl | hx
      · rw [Nat.mod_eq_of_lt (by omega)]; exact hnip
      · exact hstk x hx
  case Ret =>
    simp only [Vm.execute] at hex
    repeat' split at hex
    all_goals cases hex
    case _ =>
      rename_i addr rest hstack
      refine ⟨hstk addr (by rw [hstack]; exact List.mem_cons_self _ _), hreg, ?_⟩
      intro x hx
      exact hstk x (by rw [hstack]; exact List.mem_cons_of_mem _ hx)
    case _ =>
      exact ⟨hnip, hreg, hstk⟩
  case Out a =>
    simp only [Vm.execute, get_value_set_ip] at hex
    repeat' split at hex
    all_goals try exact Except.noConfusion hex
    all_goals cases hex
    exact ⟨hnip, hreg, hstk⟩
  case In a =>
    simp only [Vm.execute, get_value_set_ip] at hex
    repeat' split at hex
    all_goals try exact Except.noConfusion hex
    all_goals cases hex
    case _ =>
      rename_i xA reg ha c rest hinpeq xS regs hst
      refine ⟨hnip, store_forall _ _ _ _ _ hreg
        (hinp c (by rw [hinpeq]; exact List.mem_cons_self _ _)) hst, hstk⟩
    case _ =>
      exact ⟨lt_of_le_of_lt (Nat.sub_le _ _) hnip, hreg, hstk⟩
  case Noop =>
    simp only [Vm.execute] at hex
    cases hex
    exact ⟨hnip, hreg, hstk⟩

end Emulator

/-- Claim C1 counterexample: a machine loaded from a raw image whose
data word at address 3 is 40000 — loads are not masked — executes
`Rmem (Reg 0) 3` successfully and ends with register 0 holding 40000,
violating invariant I2 (every register < 32768). -/
theorem c1_rmem_unmasked_counterexample :
    (Emulator.Vm.step Emulator.rmemVm).map (fun w => w.registers.getD 0 0) =
      Except.ok 40000 ∧ ¬ (40000 < 32768) :=
  ⟨rfl, by omega⟩

/-- Claim C1, amended: one successful step preserves the invariants
I1 (ip < 32768) and I2 (registers < 32768) provided the pre-state
satisfies them together with: every stack entry < 32768, every pending
input character < 32768 after the `u16` cast, the fetched instruction
ends strictly below the top of the address space, and — the condition
the counterexample shows is necessary — a memory cell read by `Rmem`
holds a masked value (< 32768). The stack bound is preserved as well. -/
theorem c1_step_preserves_invariants_amended (v v2 : Emulator.Vm)
    (instr : Emulator.Opcode)
    (hreg : ∀ x ∈ v.registers, x < 32768)
    (hstk : ∀ x ∈ v.stack, x < 32768)
    (hinp : ∀ c ∈ v.input_buffer, c.toNat % 65536 < 32768)
    (hfetch : v.fetch v.ip = Except.ok instr)
    (hbound : v.ip + instr.size < 32768)
    (hrm : ∀ a b addr w, instr = Emulator.Opcode.Rmem a b →
      v.get_value b = Except.ok addr → v.memory.get? addr = some w → w < 32768)
    (hstep : v.step = Except.ok v2) :
    v2.ip < 32768 ∧ (∀ x ∈ v2.registers, x < 32768) ∧
      (∀ x ∈ v2.stack, x < 32768) := by
  rw [Emulator.Vm.step] at hstep
  split at hstep
  · exact Except.noConfusion hstep
  · exact Except.noConfusion hstep
  · rw [hfetch] at hstep
    simp only [] at hstep
    split at hstep
    · exact Except.noConfusion hstep
    · rename_i vm2 hex
      cases hstep
      have h2 := Emulator.execute_invariants (Emulator.traceStep v instr) instr
        (v.ip + instr.size) vm2 hex (by simpa using hreg) (by simpa using hstk)
        (by simpa using hinp) (Emulator.fetch_wf v v.ip instr hfetch) hbound
        (by intro a b addr w h1 h2 h3
            exact hrm a b addr w h1 (by simpa using h2) (by simpa using h3))
      exact ⟨h2.1, h2.2.1, h2.2.2⟩

/-- Witness for C1 at the machine running `Halt` at address 0. -/
theorem c1_step_preserves_invariants_witness :
    ({ Emulator.haltVm with
        ip := 1,
        pc := 1,
        state := Emulator.VmState.Halted } : Emulator.Vm).ip < 32768 ∧
    (∀ x ∈ ({ Emulator.haltVm with
        ip := 1,
        pc := 1,
        state := Emulator.VmState.Halted } : Emulator.Vm).registers, x < 32768) ∧
    (∀ x ∈ ({ Emulator.haltVm with
        ip := 1,
        pc := 1,
        state := Emulator.VmState.Halted } : Emulator.Vm).stack, x < 32768) :=
  c1_step_preserves_invariants_amended Emulator.haltVm
    { Emulator.haltVm with
      ip := 1,
      pc := 1,
      state := Emulator.VmState.Halted }
    Emulator.Opcode.Halt (by decide) (by decide) (by decide) rfl (by decide)
    (fun a b addr w h => Emulator.Opcode.noConfusion h) rfl
